import Mathlib

/-!
Verification development for the news-intelligence backend core:
retry executor (`backend/src/utils/retryUtils.ts`), TTL cache
(`backend/src/services/cacheService.ts`), pagination and deduplication
pipeline (`backend/src/utils/newsUtils.ts`), aggregation engine
(`backend/src/utils/analysisUtils.ts`) and the topic-analysis
orchestrator (`backend/src/services/topicAnalysisService.ts`).

Numbers that are JS `number`s are modelled as rationals (`ℚ`);
`x.toFixed(p)` prefixed with `+` is modelled as rounding to the nearest
multiple of `10^(-p)`.  Absent (`undefined`) values are modelled with
`Option`.
-/

/-! ## Data model (backend/src/types/index.ts) -/

/-- Political-leaning categories of a news source, from the backend type
`PoliticalLeaning` (the eight values the aggregation initialises). -/
inductive PoliticalLeaning where
  | left
  | center_left
  | center
  | center_right
  | right
  | far_left
  | far_right
  | nonpartisan
deriving DecidableEq, Inhabited, Repr

/-- Sentiment scores attached to an article; every component is optional
(`pos? / neg? / neu?` in the TS interface `Sentiment`). -/
structure Sentiment where
  pos : Option ℚ
  neg : Option ℚ
  neu : Option ℚ
deriving DecidableEq, Inhabited, Repr

/-- Metadata of a news source (TS interface `SourceMetadata`). -/
structure SourceMetadata where
  id : Option String
  country : Option String
  political_leaning : Option PoliticalLeaning
  reliability_score : Option ℚ
  type : Option String
deriving DecidableEq, Inhabited, Repr

/-- One news item (TS interface `NewsArticle`).  The `title` field is
declared `string` in TS but the code guards it with optional chaining
(`article.title?.`), so runtime absence is representable: we model it as
`Option String`. -/
structure NewsArticle where
  id : String
  title : Option String
  source_title : String
  source_link : Option String
  article_link : String
  keywords : Option (List String)
  topics : Option (List String)
  description : String
  pub_date : String
  creator : Option String
  content : Option String
  media_url : Option String
  media_type : Option String
  language : String
  sentiment : Option Sentiment
  source : Option SourceMetadata
deriving DecidableEq, Inhabited, Repr

/-- Projection of an article used for report prompts (TS `ArticleSummary`). -/
structure ArticleSummary where
  title : Option String
  description : String
  source : String
  publishedDate : String
  sentiment : ℚ
  articleUrl : String
deriving DecidableEq, Inhabited, Repr

/-- Entity lists returned by the external entity extractor. -/
structure TopEntities where
  organizations : List String
  people : List String
  locations : List String
deriving DecidableEq, Inhabited, Repr

/-- Subscription tier of the upstream article API (TS `ApiTier`). -/
inductive ApiTier where
  | free
  | developer
  | business
  | enterprise
deriving DecidableEq, Inhabited, Repr

/-! ## Rounding

Model of the TS idiom `+(x).toFixed(p)`: round to the nearest multiple
of `10^(-p)` (ties travel up, as `Mathlib.round` does). -/

/-- Round a rational to `p` decimal places. -/
def roundTo (p : ℕ) (x : ℚ) : ℚ :=
  ((round (x * 10 ^ p) : ℤ) : ℚ) / 10 ^ p

/-! ## Retry executor (backend/src/utils/retryUtils.ts) -/

/-- Configuration for `withRetry` (TS `RetryOptions`, with the defaults of
`DEFAULT_OPTIONS`).  Delays are in milliseconds. -/
structure RetryOptions (E : Type) where
  maxRetries : ℕ := 3
  initialDelayMs : ℚ := 1000
  backoffMultiplier : ℚ := 2
  maxDelayMs : ℚ := 10000
  retryImmediatelyOnce : Bool := true
  shouldRetry : E → Bool := fun _ => true

/-- Observable outcome of one `withRetry` run: the final result, the
number of invocations of the wrapped operation, and the list of delays
(in ms) waited before each retry, in order. -/
structure RetryResult (E A : Type) where
  result : Except E A
  calls : ℕ
  delays : List ℚ
deriving Repr

/-- Total attempt budget: `1 + (retryImmediatelyOnce ? 1 : 0) + maxRetries`. -/
def RetryOptions.totalAttempts {E : Type} (o : RetryOptions E) : ℕ :=
  1 + (if o.retryImmediatelyOnce then 1 else 0) + o.maxRetries

/-- Exponential-backoff delay computed for a failure on attempt `attempt`
(1-based), mirroring
`min(initialDelayMs * backoffMultiplier ^ (attempt - (retryImmediatelyOnce ? 2 : 1)), maxDelayMs)`.
The subtraction is on `ℕ`; the loop only evaluates this with
`attempt ≥ 2` when the immediate retry is enabled. -/
def backoffDelayMs {E : Type} (o : RetryOptions E) (attempt : ℕ) : ℚ :=
  min (o.initialDelayMs * o.backoffMultiplier ^ (attempt - (if o.retryImmediatelyOnce then 2 else 1)))
    o.maxDelayMs

/-- Loop body of `withRetry`.  The operation is modelled as a function
from the (1-based) attempt number to its outcome on that attempt.
`remaining` is the number of attempts still allowed after the current
one (`totalAttempts - attempt`), so `remaining = 0` is the TS guard
`attempt >= totalAttempts`.  Mirrors the TS control flow: on failure the
retryability predicate is consulted first, then exhaustion, then the
delay is chosen (zero for the first failure when `retryImmediatelyOnce`
is set, exponential backoff otherwise). -/
def withRetryGo {E A : Type} (o : RetryOptions E) (op : ℕ → Except E A) :
    ℕ → ℕ → Bool → RetryResult E A
  | remaining, attempt, immediateRetryUsed =>
    match op attempt with
    | .ok a => ⟨.ok a, 1, []⟩
    | .error e =>
      if !o.shouldRetry e then ⟨.error e, 1, []⟩
      else
        match remaining with
        | 0 => ⟨.error e, 1, []⟩
        | r + 1 =>
          if o.retryImmediatelyOnce && !immediateRetryUsed then
            let rest := withRetryGo o op r (attempt + 1) true
            ⟨rest.result, rest.calls + 1, 0 :: rest.delays⟩
          else
            let rest := withRetryGo o op r (attempt + 1) immediateRetryUsed
            ⟨rest.result, rest.calls + 1, backoffDelayMs o attempt :: rest.delays⟩

/-- `withRetry(fn, options)`: run the operation with up to
`totalAttempts` attempts. -/
def withRetry {E A : Type} (o : RetryOptions E) (op : ℕ → Except E A) : RetryResult E A :=
  withRetryGo o op (o.totalAttempts - 1) 1 false

/-! ## TTL cache (backend/src/services/cacheService.ts)

The store is the process-wide `Map<string, CacheEntry<unknown>>`,
modelled as a function from keys to optional `(value, expiresAt)`
entries.  The constructor's clock `now()` is passed explicitly to each
operation; timestamps are in milliseconds. -/

/-- State of the in-memory cache: key to optional `(value, expiresAt)`. -/
def CacheState (V : Type) : Type := String → Option (V × ℚ)

/-- The empty cache. -/
def emptyCache (V : Type) : CacheState V := fun _ => none

namespace CacheService

/-- `get(key)`: look the key up; if the entry has expired
(`now() > entry.expiresAt`) delete it and return `undefined`.  Returns
the looked-up value together with the possibly-updated store. -/
def get {V : Type} (s : CacheState V) (now : ℚ) (key : String) :
    Option V × CacheState V :=
  match s key with
  | none => (none, s)
  | some entry =>
    if now > entry.2 then (none, fun k => if k = key then none else s k)
    else (some entry.1, s)

/-- `set(key, value, ttlSeconds)`: store the value with
`expiresAt = now() + ttlSeconds * 1000`. -/
def set {V : Type} (s : CacheState V) (now : ℚ) (key : String) (value : V)
    (ttlSeconds : ℚ) : CacheState V :=
  fun k => if k = key then some (value, now + ttlSeconds * 1000) else s k

end CacheService

/-! ## Search-query normalization (backend/src/utils/helpers.ts) -/

/-- Replace curly double quotes (U+201C, U+201D) with a straight double
quote, curly single quotes (U+2018, U+2019) with a straight single
quote, then trim, mirroring `normalizeSearchQuery`. -/
def normalizeSearchQuery (query : String) : String :=
  (query.map fun c =>
    if c = Char.ofNat 0x201C ∨ c = Char.ofNat 0x201D then Char.ofNat 34
    else if c = Char.ofNat 0x2018 ∨ c = Char.ofNat 0x2019 then Char.ofNat 39
    else c).trim

/-! ## Deduplication (backend/src/utils/newsUtils.ts, `deduplicateArticles`) -/

/-- Normalized title of an article: `article.title?.toLowerCase().trim()`.
`none` when the title is absent. -/
def normalizedTitle (a : NewsArticle) : Option String :=
  a.title.map fun t => t.toLower.trim

/-- Loop of `deduplicateArticles`: walk the list keeping the first
occurrence of each normalized title.  `seen` is the key set of the
`Map`; the TS guard `if (normalizedTitle && !seen.has(normalizedTitle))`
skips articles whose normalized title is absent or empty (falsy). -/
def dedupAux : List NewsArticle → List String → List NewsArticle
  | [], _ => []
  | a :: rest, seen =>
    match normalizedTitle a with
    | none => dedupAux rest seen
    | some t =>
      if t ≠ "" ∧ t ∉ seen then a :: dedupAux rest (t :: seen)
      else dedupAux rest seen

/-- `deduplicateArticles`: keep the first occurrence of each unique
normalized title (Map insertion order preserves first-seen order). -/
def deduplicateArticles (articles : List NewsArticle) : List NewsArticle :=
  dedupAux articles []

/-- Formalization of the claim sentence "output contains exactly the
first occurrence of each distinct normalized title, preserving order"
taken literally: every present title (the empty normalized title
included) keeps its first occurrence.  Stated from the spec's words, to
be compared with `deduplicateArticles`. -/
def dedupSpecAllTitles : List NewsArticle → List NewsArticle
  | [] => []
  | a :: rest =>
    match normalizedTitle a with
    | none => dedupSpecAllTitles rest
    | some t => a :: dedupSpecAllTitles (rest.filter fun b => normalizedTitle b ≠ some t)
termination_by l => l.length
decreasing_by
  all_goals simp only [List.length_cons]
  all_goals first
    | exact Nat.lt_succ_of_le (List.length_filter_le _ rest)
    | omega

/-- Spec-side characterization after amendment: keep the first
occurrence of each distinct nonempty normalized title, in order;
articles with an absent or empty normalized title are dropped. -/
def dedupSpecKeepFirst : List NewsArticle → List NewsArticle
  | [] => []
  | a :: rest =>
    match normalizedTitle a with
    | none => dedupSpecKeepFirst rest
    | some t =>
      if t = "" then dedupSpecKeepFirst rest
      else a :: dedupSpecKeepFirst (rest.filter fun b => normalizedTitle b ≠ some t)
termination_by l => l.length
decreasing_by
  all_goals simp only [List.length_cons]
  all_goals first
    | exact Nat.lt_succ_of_le (List.length_filter_le _ rest)
    | omega

/-! ## Aggregation engine (backend/src/utils/analysisUtils.ts) -/

/-- Number of decimal places for sentiment averages
(`ANALYSIS_CONSTANTS.SENTIMENT_PRECISION`). -/
def SENTIMENT_PRECISION : ℕ := 3

/-- Result of `calculateAverageSentiment` (TS `SentimentAggregation`). -/
structure SentimentAggregation where
  positive : ℚ
  neutral : ℚ
  negative : ℚ
deriving DecidableEq, Inhabited, Repr

/-- Accumulator of the `calculateAverageSentiment` loop:
`(positiveSum, negativeSum, neutralSum, sentimentCount)`. -/
def sentimentFold (acc : ℚ × ℚ × ℚ × ℕ) (a : NewsArticle) : ℚ × ℚ × ℚ × ℕ :=
  match a.sentiment with
  | some s => (acc.1 + s.pos.getD 0, acc.2.1 + s.neg.getD 0, acc.2.2.1 + s.neu.getD 0,
      acc.2.2.2 + 1)
  | none => acc

/-- `calculateAverageSentiment`: mean of each component over articles
that carry a sentiment object, `(0, 1, 0)` when none does, components
rounded to `SENTIMENT_PRECISION` decimals. -/
def calculateAverageSentiment (articles : List NewsArticle) : SentimentAggregation :=
  let sums := articles.foldl sentimentFold (0, 0, 0, 0)
  if sums.2.2.2 = 0 then ⟨0, 1, 0⟩
  else
    ⟨roundTo SENTIMENT_PRECISION (sums.1 / sums.2.2.2),
     roundTo SENTIMENT_PRECISION (sums.2.2.1 / sums.2.2.2),
     roundTo SENTIMENT_PRECISION (sums.2.1 / sums.2.2.2)⟩

/-- One row of the political-leaning distribution
(TS `PoliticalLeaningCount`). -/
structure PoliticalLeaningCount where
  leaning : PoliticalLeaning
  count : ℕ
  share : ℚ
deriving DecidableEq, Inhabited, Repr

/-- Insertion order of the category initialisation in
`aggregatePoliticalLeaning` (all eight categories start at count 0). -/
def leaningInitOrder : List PoliticalLeaning :=
  [.left, .center_left, .center, .right, .center_right, .far_left, .far_right, .nonpartisan]

/-- Effective leaning of one article:
`article.source?.political_leaning`, defaulting to `nonpartisan` when
absent (the TS falsy check `if (!politicalLeaning)`). -/
def articleLeaning (a : NewsArticle) : PoliticalLeaning :=
  match a.source.bind SourceMetadata.political_leaning with
  | some l => l
  | none => PoliticalLeaning.nonpartisan

/-- Comparison used to model the stable JS
`sort((a, b) => b.count - a.count)`: count descending. -/
def countDescRel (x y : PoliticalLeaningCount) : Prop := y.count ≤ x.count

instance : DecidableRel countDescRel := fun x y => Nat.decLe y.count x.count

instance : IsTotal PoliticalLeaningCount countDescRel :=
  ⟨fun x y => (Nat.le_total y.count x.count).imp id id⟩

instance : IsTrans PoliticalLeaningCount countDescRel :=
  ⟨fun _ _ _ h h' => le_trans h' h⟩

/-- `aggregatePoliticalLeaning`: count articles per effective leaning
over the eight pre-initialised categories, attach
`share = +(count / total).toFixed(4)` with `total = articles.length || 1`,
and sort by count descending. -/
def aggregatePoliticalLeaning (articles : List NewsArticle) : List PoliticalLeaningCount :=
  let leaningCounts : PoliticalLeaning → ℕ := articles.foldl
    (fun m a l => if l = articleLeaning a then m l + 1 else m l) (fun _ => 0)
  let total : ℚ := if articles.length = 0 then 1 else (articles.length : ℚ)
  List.insertionSort countDescRel
    (leaningInitOrder.map fun l =>
      ⟨l, leaningCounts l, roundTo 4 ((leaningCounts l : ℚ) / total)⟩)

/-! ## Pagination loop (backend/src/utils/newsUtils.ts,
`fetchAllTopicArticlesWithTier`) -/

/-- Hard safety cap on pagination loops
(`NEWS_API_CONSTANTS.MAX_PAGINATION_LOOPS`). -/
def MAX_PAGINATION_LOOPS : ℕ := 20

/-- One page of the article-source response, as consumed by the loop:
articles, opaque next-cursor (`null`/`undefined` modelled as `none`) and
the tier detected from the response metadata. -/
structure NewsPageResponse where
  data : List NewsArticle
  next_cursor : Option String
  apiTier : Option ApiTier
deriving Inhabited

/-- Outcome of the pagination loop: accumulated articles, detected tier
and the number of page requests issued. -/
structure FetchLoopResult where
  articles : List NewsArticle
  apiTier : Option ApiTier
  requests : ℕ
deriving Inhabited

/-- JS truthiness of the advanced cursor `response.next_cursor ?? undefined`
in `while (cursor)`: the loop stops on an absent or empty cursor. -/
def cursorDone : Option String → Bool
  | none => true
  | some c => c == ""

/-- Body of the `do ... while (cursor)` loop.  The article source is
modelled as a function from the cursor to the page it returns (all other
query parameters are fixed for the call).  `fuel` is
`maxLoops - loopCount`: the TS loop increments `loopCount` and breaks
when `loopCount > maxLoops`, so `fuel = 0` means that check fires after
the current request.  The tier is captured only from the first response
(`loopCount === 0 && response.apiTier`). -/
def fetchPagesGo (service : Option String → NewsPageResponse) :
    ℕ → Option String → List NewsArticle → ℕ → Option ApiTier → FetchLoopResult
  | fuel, cursor, acc, loopCount, tier =>
    let response := service cursor
    let tier2 := if loopCount = 0 && response.apiTier.isSome then response.apiTier else tier
    let acc2 := acc ++ response.data
    match fuel with
    | 0 => ⟨acc2, tier2, 1⟩
    | f + 1 =>
      if cursorDone response.next_cursor then ⟨acc2, tier2, 1⟩
      else
        let rest := fetchPagesGo service f response.next_cursor acc2 (loopCount + 1) tier2
        ⟨rest.articles, rest.apiTier, rest.requests + 1⟩

/-- The cursor-pagination loop of `fetchAllTopicArticlesWithTier`:
unbounded accumulation across cursor pages, guarded by the `maxLoops`
safety cap (default `MAX_PAGINATION_LOOPS`). -/
def fetchPaginationLoop (service : Option String → NewsPageResponse)
    (maxLoops : ℕ := MAX_PAGINATION_LOOPS) : FetchLoopResult :=
  fetchPagesGo service maxLoops none [] 0 none

/-- Cursor reached before the `i`-th page request: `none` initially,
then each response's next-cursor. -/
def cursorChain (service : Option String → NewsPageResponse) : ℕ → Option String
  | 0 => none
  | i + 1 => (service (cursorChain service i)).next_cursor

/-! ## Topic-analysis orchestrator
(backend/src/services/topicAnalysisService.ts, `analyzeTopicCoverage`)

The orchestrator is modelled over the shared cache.  Its awaited
collaborators are inputs: the outcome of
`fetchAllTopicArticlesWithTier` (an exception or an article list plus
tier), the demo-data lookup, the TTL chosen by `calculateCacheTTL`
(a function of the current date, abstracted as a value) and the
aggregation-and-assembly stage producing the final record (whose pure
components are the aggregation functions defined above; the claim below
holds for every such stage). -/

/-- The analysis record (TS `ProcessedTopicData`).  `dateRange` is the
`(start, end)` pair. -/
structure ProcessedTopicData where
  topic : String
  totalMentions : ℕ
  dateRange : String × String
  sentimentAverage : SentimentAggregation
  politicalLeaningDistribution : List PoliticalLeaningCount
  topEntities : TopEntities
  topKeywords : List (String × ℕ)
  mentionsByDay : List (String × ℕ)
  topSources : List (String × ℕ)
  geographicDistribution : List (String × ℕ)
  topArticles : List ArticleSummary
  apiTier : Option ApiTier
deriving Inhabited

/-- Values held by the shared cache at the orchestrator's two write
sites: a raw article list (`articles:` keys) or an analysis record
(`processed:` keys). -/
inductive CacheVal where
  | articlesV : List NewsArticle → CacheVal
  | analysisV : ProcessedTopicData → CacheVal
deriving Inhabited

/-- Read a cached value as an analysis record, modelling the unchecked
TS cast `cache.get<ProcessedTopicData>(cacheKey)`. -/
def CacheVal.asAnalysis : CacheVal → ProcessedTopicData
  | analysisV d => d
  | articlesV _ => default

/-- `isDemoMode`: topic ends (after trimming) with the `-demo` suffix
(backend/src/services/demoDataService.ts). -/
def isDemoMode (topic : String) : Bool :=
  (topic.trim).endsWith "-demo"

/-- Parameters of one `analyzeTopicCoverage` call. -/
structure AnalyzeParams where
  topic : String
  startDate : String
  endDate : String
  language : Option String

/-- Cache key of the analysis record:
`processed:<normalized topic>:<start>:<end>:<language or empty>`
(`generateTopicAnalysisCacheKey` in analysisUtils.ts). -/
def generateTopicAnalysisCacheKey (p : AnalyzeParams) : String :=
  "processed:" ++ normalizeSearchQuery p.topic ++ ":" ++ p.startDate ++ ":" ++ p.endDate
    ++ ":" ++ p.language.getD ""

/-- Cache key of the raw article list:
`articles:<normalized topic>:<start>:<end>:<language or empty>`. -/
def articlesCacheKey (p : AnalyzeParams) : String :=
  "articles:" ++ normalizeSearchQuery p.topic ++ ":" ++ p.startDate ++ ":" ++ p.endDate
    ++ ":" ++ p.language.getD ""

/-- Environment of one orchestrator call: the clock, the TTL computed by
`calculateCacheTTL(endDate)`, the demo-data lookup result, the awaited
fetch outcome, and the aggregation/entity/assembly stage. -/
structure AnalyzeEnv (E : Type) where
  now : ℚ
  cacheTTL : ℚ
  demoData : Option ProcessedTopicData
  fetchResult : Except E (List NewsArticle × Option ApiTier)
  buildRecord : List NewsArticle → Option ApiTier → ProcessedTopicData

/-- `analyzeTopicCoverage`: demo-mode short circuit, then cache lookup;
on a miss, await the fetch (propagating its failure), cache the raw
article list, assemble the record, cache it, and return it.  Both cache
writes use the TTL computed once from the end date. -/
def analyzeTopicCoverage {E : Type} (env : AnalyzeEnv E) (p : AnalyzeParams)
    (s : CacheState CacheVal) : Except E ProcessedTopicData × CacheState CacheVal :=
  match if isDemoMode p.topic then env.demoData else none with
  | some demoData => (.ok demoData, s)
  | none =>
    let cacheKey := generateTopicAnalysisCacheKey p
    match CacheService.get s env.now cacheKey with
    | (some cachedAnalysis, s1) => (.ok cachedAnalysis.asAnalysis, s1)
    | (none, s1) =>
      match env.fetchResult with
      | .error e => (.error e, s1)
      | .ok (articles, apiTier) =>
        let s2 := CacheService.set s1 env.now (articlesCacheKey p)
          (CacheVal.articlesV articles) env.cacheTTL
        let analysisResult := env.buildRecord articles apiTier
        let s3 := CacheService.set s2 env.now cacheKey
          (CacheVal.analysisV analysisResult) env.cacheTTL
        (.ok analysisResult, s3)


/-! ## Concrete instances used by witnesses and counterexamples -/

/-- An article whose title is the empty string: its normalized title is
the empty string, which the TS truthiness guard drops. -/
def emptyTitledArticle : NewsArticle :=
  { id := "a1", title := some "", source_title := "s", source_link := none,
    article_link := "l", keywords := none, topics := none, description := "d",
    pub_date := "2025-01-01T00:00:00Z", creator := none, content := none,
    media_url := none, media_type := none, language := "en", sentiment := none,
    source := none }

/-- A concrete sentiment object `(pos 1/2, neg 1/4, neu 1/4)`. -/
def sentimentHalfQuarter : Sentiment :=
  { pos := some (1/2), neg := some (1/4), neu := some (1/4) }

/-- A titled article carrying a concrete sentiment object. -/
def sentimentArticle : NewsArticle :=
  { emptyTitledArticle with title := some "t", sentiment := some sentimentHalfQuarter }

/-- A sentiment object whose positive component `1/2500 = 0.0004` rounds
to 0 at precision 3. -/
def tinySentiment : Sentiment :=
  { pos := some (1/2500), neg := some 0, neu := some 0 }

/-- An article carrying `tinySentiment`. -/
def tinySentimentArticle : NewsArticle :=
  { emptyTitledArticle with title := some "t", sentiment := some tinySentiment }

/-- A concrete orchestrator environment whose fetch fails. -/
def failingEnv : AnalyzeEnv String :=
  { now := 0, cacheTTL := 3600, demoData := none,
    fetchResult := Except.error "HTTP 503 error",
    buildRecord := fun _ _ => default }

/-- Concrete parameters for a non-demo topic. -/
def plainParams : AnalyzeParams :=
  { topic := "", startDate := "2025-10-01", endDate := "2025-10-16", language := some "en" }

/-- Cursor reached after following `i` next-cursors starting from
`cursor`. -/
def cursorChainFrom (service : Option String → NewsPageResponse)
    (cursor : Option String) : ℕ → Option String
  | 0 => cursor
  | i + 1 => (service (cursorChainFrom service cursor i)).next_cursor

/-! ## Theorems: retry executor (claims C1 and C2) -/

lemma withRetryGo_step_ok {E A : Type} {o : RetryOptions E} {op : ℕ → Except E A}
    {attempt : ℕ} {a : A} (he : op attempt = Except.ok a)
    (remaining : ℕ) (b : Bool) :
    withRetryGo o op remaining attempt b = ⟨Except.ok a, 1, []⟩ := by
  rw [withRetryGo.eq_1, he]

lemma withRetryGo_step_noretry {E A : Type} {o : RetryOptions E} {op : ℕ → Except E A}
    {attempt : ℕ} {e : E} (he : op attempt = Except.error e)
    (hr : o.shouldRetry e = false) (remaining : ℕ) (b : Bool) :
    withRetryGo o op remaining attempt b = ⟨Except.error e, 1, []⟩ := by
  rw [withRetryGo.eq_1, he]
  simp [hr]

lemma withRetryGo_step_stop {E A : Type} {o : RetryOptions E} {op : ℕ → Except E A}
    {attempt : ℕ} {e : E} (he : op attempt = Except.error e)
    (hr : o.shouldRetry e = true) (b : Bool) :
    withRetryGo o op 0 attempt b = ⟨Except.error e, 1, []⟩ := by
  rw [withRetryGo.eq_1, he]
  simp [hr]

lemma withRetryGo_step_imm {E A : Type} {o : RetryOptions E} {op : ℕ → Except E A}
    {attempt : ℕ} {e : E} (he : op attempt = Except.error e)
    (hr : o.shouldRetry e = true) {b : Bool}
    (hcond : (o.retryImmediatelyOnce && !b) = true) (r : ℕ) :
    withRetryGo o op (r + 1) attempt b =
      ⟨(withRetryGo o op r (attempt + 1) true).result,
       (withRetryGo o op r (attempt + 1) true).calls + 1,
       0 :: (withRetryGo o op r (attempt + 1) true).delays⟩ := by
  rw [withRetryGo.eq_1, he]
  simp [hr, hcond]

lemma withRetryGo_step_backoff {E A : Type} {o : RetryOptions E} {op : ℕ → Except E A}
    {attempt : ℕ} {e : E} (he : op attempt = Except.error e)
    (hr : o.shouldRetry e = true) {b : Bool}
    (hcond : (o.retryImmediatelyOnce && !b) = false) (r : ℕ) :
    withRetryGo o op (r + 1) attempt b =
      ⟨(withRetryGo o op r (attempt + 1) b).result,
       (withRetryGo o op r (attempt + 1) b).calls + 1,
       backoffDelayMs o attempt :: (withRetryGo o op r (attempt + 1) b).delays⟩ := by
  rw [withRetryGo.eq_1, he]
  simp [hr, hcond]

lemma withRetryGo_all_fail {E A : Type} (o : RetryOptions E) (op : ℕ → Except E A)
    (hfail : ∀ n, ∃ e, op n = Except.error e ∧ o.shouldRetry e = true) :
    ∀ remaining attempt immediateRetryUsed,
      (withRetryGo o op remaining attempt immediateRetryUsed).calls = remaining + 1 ∧
      ∃ e, op (attempt + remaining) = Except.error e ∧
        (withRetryGo o op remaining attempt immediateRetryUsed).result = Except.error e := by
  intro remaining
  induction remaining with
  | zero =>
    intro attempt b
    obtain ⟨e, he, hr⟩ := hfail attempt
    rw [withRetryGo_step_stop he hr b]
    exact ⟨rfl, e, he, rfl⟩
  | succ r ih =>
    intro attempt b
    obtain ⟨e, he, hr⟩ := hfail attempt
    have harith : attempt + 1 + r = attempt + (r + 1) := by omega
    by_cases hcond : (o.retryImmediatelyOnce && !b) = true
    · rw [withRetryGo_step_imm he hr hcond r]
      obtain ⟨hc, e2, he2, hres⟩ := ih (attempt + 1) true
      exact ⟨by simp [hc], e2, by rw [← harith]; exact he2, hres⟩
    · rw [withRetryGo_step_backoff he hr (Bool.not_eq_true _ ▸ hcond) r]
      obtain ⟨hc, e2, he2, hres⟩ := ih (attempt + 1) b
      exact ⟨by simp [hc], e2, by rw [← harith]; exact he2, hres⟩

/-- C1: with `maxRetries = 3` and `retryImmediatelyOnce = true`, an
operation that always fails with an error the policy's predicate accepts
is invoked exactly 5 times (1 initial + 1 immediate + 3 backoff) and the
last underlying error is rethrown; an operation whose first error the
predicate rejects is invoked exactly once and that error is rethrown. -/
theorem withRetry_attempt_counts {E A : Type} (o : RetryOptions E)
    (hmax : o.maxRetries = 3) (himm : o.retryImmediatelyOnce = true) :
    (∀ op : ℕ → Except E A,
      (∀ n, ∃ e, op n = Except.error e ∧ o.shouldRetry e = true) →
      (withRetry o op).calls = 5 ∧
      ∃ e, op 5 = Except.error e ∧ (withRetry o op).result = Except.error e) ∧
    (∀ (op : ℕ → Except E A) (e : E), op 1 = Except.error e → o.shouldRetry e = false →
      (withRetry o op).calls = 1 ∧ (withRetry o op).result = Except.error e) := by
  constructor
  · intro op hfail
    have htot : o.totalAttempts - 1 = 4 := by
      simp [RetryOptions.totalAttempts, himm, hmax]
    unfold withRetry
    rw [htot]
    obtain ⟨hc, e, he, hres⟩ := withRetryGo_all_fail o op hfail 4 1 false
    exact ⟨hc, e, he, hres⟩
  · intro op e he hsr
    unfold withRetry
    rw [withRetryGo_step_noretry he hsr _ false]
    exact ⟨rfl, rfl⟩

/-- Witness for C1 at a concrete policy and always/never-retryable
operations. -/
theorem withRetry_attempt_counts_witness :
    (withRetry ({} : RetryOptions ℕ) (fun n => (Except.error n : Except ℕ Unit))).calls = 5 ∧
    (withRetry ({ shouldRetry := fun _ => false } : RetryOptions ℕ)
      (fun n => (Except.error n : Except ℕ Unit))).calls = 1 := by
  constructor
  · exact ((withRetry_attempt_counts ({} : RetryOptions ℕ) rfl rfl).1 _
      (fun n => ⟨n, rfl, rfl⟩)).1
  · exact ((withRetry_attempt_counts ({ shouldRetry := fun _ => false } : RetryOptions ℕ)
      rfl rfl).2 _ 1 rfl rfl).1

lemma withRetryGo_delays_backoff {E A : Type} (o : RetryOptions E) (op : ℕ → Except E A)
    (himm : o.retryImmediatelyOnce = true) :
    ∀ remaining attempt, 2 ≤ attempt → ∀ k d,
      ((withRetryGo o op remaining attempt true).delays).get? k = some d →
      d = min (o.initialDelayMs * o.backoffMultiplier ^ (attempt - 2 + k)) o.maxDelayMs := by
  intro remaining
  induction remaining with
  | zero =>
    intro attempt h2 k d hk
    cases he : op attempt with
    | ok a => rw [withRetryGo_step_ok he 0 true] at hk; simp at hk
    | error e =>
      by_cases hr : o.shouldRetry e
      · rw [withRetryGo_step_stop he hr true] at hk; simp at hk
      · rw [withRetryGo_step_noretry he (by simpa using hr) 0 true] at hk; simp at hk
  | succ r ih =>
    intro attempt h2 k d hk
    cases he : op attempt with
    | ok a => rw [withRetryGo_step_ok he (r + 1) true] at hk; simp at hk
    | error e =>
      by_cases hr : o.shouldRetry e
      · have hcond : (o.retryImmediatelyOnce && !true) = false := by simp
        rw [withRetryGo_step_backoff he hr hcond r] at hk
        cases k with
        | zero =>
          simp only [List.get?_cons_zero, Option.some_inj] at hk
          rw [← hk]
          simp [backoffDelayMs, himm]
        | succ k =>
          simp only [List.get?_cons_succ] at hk
          have hexp : attempt + 1 - 2 + k = attempt - 2 + (k + 1) := by omega
          have := ih (attempt + 1) (by omega) k d hk
          rw [this, hexp]
      · rw [withRetryGo_step_noretry he (by simpa using hr) (r + 1) true] at hk
        simp at hk

/-- C2: with `retryImmediatelyOnce` enabled, the delay before the first
retry is zero and the delay before each subsequent retry is
`min(initialDelay * multiplier ^ i, maxDelay)` where `i` counts retries
after the immediate one starting at 0 (the immediate retry does not
contribute to the exponent). -/
theorem withRetry_delay_schedule {E A : Type} (o : RetryOptions E) (op : ℕ → Except E A)
    (himm : o.retryImmediatelyOnce = true) :
    ∀ j d, ((withRetry o op).delays).get? j = some d →
      d = if j = 0 then 0
          else min (o.initialDelayMs * o.backoffMultiplier ^ (j - 1)) o.maxDelayMs := by
  intro j d hj
  unfold withRetry at hj
  have htot : o.totalAttempts - 1 = o.maxRetries + 1 := by
    simp only [RetryOptions.totalAttempts, himm, if_true]
    omega
  rw [htot] at hj
  cases he : op 1 with
  | ok a => rw [withRetryGo_step_ok he _ false] at hj; simp at hj
  | error e =>
    by_cases hr : o.shouldRetry e
    · have hcond : (o.retryImmediatelyOnce && !false) = true := by simp [himm]
      rw [withRetryGo_step_imm he hr hcond _] at hj
      cases j with
      | zero => simp only [List.get?_cons_zero, Option.some_inj] at hj; simp [← hj]
      | succ k =>
        simp only [List.get?_cons_succ] at hj
        have := withRetryGo_delays_backoff o op himm o.maxRetries 2 (by omega) k d hj
        rw [this]
        simp
    · rw [withRetryGo_step_noretry he (by simpa using hr) _ false] at hj
      simp at hj

/-- Witness for C2: the third delay of the default policy on an
always-failing operation is `min(1000 * 2 ^ 1, 10000) = 2000`. -/
theorem withRetry_delay_schedule_witness :
    ((withRetry ({} : RetryOptions ℕ) (fun n => (Except.error n : Except ℕ Unit))).delays).get? 2
        = some 2000 ∧
    (2000 : ℚ) = if (2 : ℕ) = 0 then 0
      else min ((1000 : ℚ) * 2 ^ (2 - 1)) 10000 := by
  have hd : (withRetry ({} : RetryOptions ℕ)
      (fun n => (Except.error n : Except ℕ Unit))).delays = [0, 1000, 2000, 4000] := by
    simp [withRetry, RetryOptions.totalAttempts, withRetryGo, backoffDelayMs, min_def]
    norm_num
  refine ⟨by rw [hd]; rfl, ?_⟩
  exact withRetry_delay_schedule ({} : RetryOptions ℕ)
    (fun n => (Except.error n : Except ℕ Unit)) rfl 2 2000 (by rw [hd]; rfl)

/-! ## Theorems: TTL cache (claim C3) -/

/-- C3: after `set(k, v, ttl)` at time `t0`, `get(k)` returns `v` iff
`now ≤ t0 + ttl * 1000` (the entry's `expiresAt`); a `get(k)` with
`now > expiresAt` returns absent and deletes the entry, after which
every further `get(k)` (no intervening `set`) returns absent and leaves
the store unchanged — no resurrection; moreover a `get` touches no key
but its own and a `set` touches no key but its own (expired entries are
removed only by the read that discovers them). -/
theorem cache_ttl_spec {V : Type} (s : CacheState V) (t0 : ℚ) (k : String) (v : V) (ttl : ℚ) :
    (∀ now, (CacheService.get (CacheService.set s t0 k v ttl) now k).1 = some v ↔
      now ≤ t0 + ttl * 1000) ∧
    (∀ now, t0 + ttl * 1000 < now →
      (CacheService.get (CacheService.set s t0 k v ttl) now k).1 = none ∧
      (CacheService.get (CacheService.set s t0 k v ttl) now k).2 k = none ∧
      (∀ now2,
        (CacheService.get ((CacheService.get (CacheService.set s t0 k v ttl) now k).2) now2 k).1
          = none ∧
        (CacheService.get ((CacheService.get (CacheService.set s t0 k v ttl) now k).2) now2 k).2
          = (CacheService.get (CacheService.set s t0 k v ttl) now k).2)) ∧
    (∀ now k2, k2 ≠ k →
      (CacheService.get (CacheService.set s t0 k v ttl) now k).2 k2
        = CacheService.set s t0 k v ttl k2) ∧
    (∀ k2, k2 ≠ k → CacheService.set s t0 k v ttl k2 = s k2) := by
  have hk : CacheService.set s t0 k v ttl k = some (v, t0 + ttl * 1000) := by
    simp [CacheService.set]
  refine ⟨?_, ?_, ?_, ?_⟩
  · intro now
    simp only [CacheService.get, hk]
    by_cases h : now > t0 + ttl * 1000
    · simp only [h, if_true]
      constructor
      · intro hcontra; exact absurd hcontra (by simp)
      · intro hle; exact absurd hle (by linarith)
    · simp only [h, if_false]
      constructor
      · intro _; linarith [not_lt.mp h]
      · intro _; trivial
  · intro now hnow
    have hgt : now > t0 + ttl * 1000 := hnow
    simp only [CacheService.get, hk, hgt, if_true]
    refine ⟨trivial, by simp, ?_⟩
    intro now2
    constructor
    · simp [CacheService.get]
    · simp [CacheService.get]
  · intro now k2 hne
    simp only [CacheService.get, hk]
    by_cases h : now > t0 + ttl * 1000
    · simp only [h, if_true]
      simp [hne]
    · simp only [h, if_false]
  · intro k2 hne
    simp [CacheService.set, hne]

/-- Witness for C3 at a concrete store: a value set at time 0 with a
60-second TTL is visible at 60000 ms and gone at 60001 ms. -/
theorem cache_ttl_spec_witness :
    (CacheService.get (CacheService.set (emptyCache ℕ) 0 "k" 7 60) 60000 "k").1 = some 7 ∧
    (CacheService.get (CacheService.set (emptyCache ℕ) 0 "k" 7 60) 60001 "k").1 = none := by
  constructor
  · exact ((cache_ttl_spec (emptyCache ℕ) 0 "k" 7 60).1 60000).mpr (by norm_num)
  · exact (((cache_ttl_spec (emptyCache ℕ) 0 "k" 7 60).2.1 60001 (by norm_num))).1

/-! ## Theorems: deduplication (claims C4 and C10) -/

lemma dedupAux_congr : ∀ (L : List NewsArticle) (s1 s2 : List String),
    (∀ x, x ∈ s1 ↔ x ∈ s2) → dedupAux L s1 = dedupAux L s2 := by
  intro L
  induction L with
  | nil => intro s1 s2 _; rfl
  | cons a rest ih =>
    intro s1 s2 h
    cases ht : normalizedTitle a with
    | none => simp only [dedupAux, ht]; exact ih s1 s2 h
    | some t =>
      simp only [dedupAux, ht]
      by_cases hc : t ≠ "" ∧ t ∉ s1
      · have hc2 : t ≠ "" ∧ t ∉ s2 := ⟨hc.1, fun hm => hc.2 ((h t).mpr hm)⟩
        rw [if_pos hc, if_pos hc2]
        have hext : ∀ x, x ∈ t :: s1 ↔ x ∈ t :: s2 := by
          intro x; simp [h x]
        rw [ih (t :: s1) (t :: s2) hext]
      · have hc2 : ¬(t ≠ "" ∧ t ∉ s2) := by
          intro hcon
          exact hc ⟨hcon.1, fun hm => hcon.2 ((h t).mp hm)⟩
        rw [if_neg hc, if_neg hc2]
        exact ih s1 s2 h

lemma dedupAux_filter (t : String) (ht : t ≠ "") : ∀ (L : List NewsArticle) (seen : List String),
    dedupAux L (t :: seen) = dedupAux (L.filter fun b => normalizedTitle b ≠ some t) seen := by
  intro L
  induction L with
  | nil => intro seen; rfl
  | cons a rest ih =>
    intro seen
    cases hu : normalizedTitle a with
    | none =>
      have hkeep : List.filter (fun b => normalizedTitle b ≠ some t) (a :: rest)
          = a :: List.filter (fun b => normalizedTitle b ≠ some t) rest := by
        simp [List.filter_cons, hu]
      rw [hkeep]
      simp only [dedupAux, hu]
      exact ih seen
    | some u =>
      by_cases hut : u = t
      · subst hut
        have hdrop : List.filter (fun b => normalizedTitle b ≠ some u) (a :: rest)
            = List.filter (fun b => normalizedTitle b ≠ some u) rest := by
          simp [List.filter_cons, hu]
        have hcond : ¬(u ≠ "" ∧ u ∉ u :: seen) := by simp
        rw [hdrop]
        simp only [dedupAux, hu, if_neg hcond]
        exact ih seen
      · have hkeep : List.filter (fun b => normalizedTitle b ≠ some t) (a :: rest)
            = a :: List.filter (fun b => normalizedTitle b ≠ some t) rest := by
          simp [List.filter_cons, hu, hut]
        rw [hkeep]
        simp only [dedupAux, hu]
        by_cases hc : u ≠ "" ∧ u ∉ seen
        · have hc1 : u ≠ "" ∧ u ∉ t :: seen := by
            refine ⟨hc.1, ?_⟩
            simp [hut, hc.2]
          rw [if_pos hc1, if_pos hc]
          have hswap : dedupAux rest (u :: t :: seen) = dedupAux rest (t :: u :: seen) := by
            apply dedupAux_congr
            intro x; constructor <;> (intro hx; simp at hx ⊢; tauto)
          rw [hswap, ih (u :: seen)]
        · have hc1 : ¬(u ≠ "" ∧ u ∉ t :: seen) := by
            intro hcon
            exact hc ⟨hcon.1, fun hm => hcon.2 (by simp [hm])⟩
          rw [if_neg hc1, if_neg hc]
          exact ih seen

lemma dedupAux_eq_keepFirst : ∀ (n : ℕ) (L : List NewsArticle), L.length ≤ n →
    dedupAux L [] = dedupSpecKeepFirst L := by
  intro n
  induction n with
  | zero =>
    intro L hL
    have hnil : L = [] := List.eq_nil_of_length_eq_zero (Nat.le_zero.mp hL)
    subst hnil
    simp [dedupAux, dedupSpecKeepFirst]
  | succ n ih =>
    intro L hL
    cases L with
    | nil => simp [dedupAux, dedupSpecKeepFirst]
    | cons a rest =>
      have hrest : rest.length ≤ n := by
        simp only [List.length_cons] at hL; omega
      cases ht : normalizedTitle a with
      | none =>
        simp only [dedupAux, dedupSpecKeepFirst, ht]
        exact ih rest hrest
      | some t =>
        by_cases hte : t = ""
        · subst hte
          have hcond : ¬("" ≠ "" ∧ "" ∉ ([] : List String)) := by simp
          simp only [dedupAux, dedupSpecKeepFirst, ht, if_neg hcond, if_pos rfl]
          exact ih rest hrest
        · have hcond : t ≠ "" ∧ t ∉ ([] : List String) := ⟨hte, by simp⟩
          simp only [dedupAux, dedupSpecKeepFirst, ht, if_pos hcond, if_neg hte]
          rw [dedupAux_filter t hte rest []]
          congr 1
          exact ih _ (le_trans (List.length_filter_le _ rest) hrest)

lemma dedupAux_mem : ∀ (L : List NewsArticle) (seen : List String) (a : NewsArticle),
    a ∈ dedupAux L seen → ∃ t, normalizedTitle a = some t ∧ t ≠ "" ∧ t ∉ seen := by
  intro L
  induction L with
  | nil => intro seen a ha; simp [dedupAux] at ha
  | cons b rest ih =>
    intro seen a ha
    cases ht : normalizedTitle b with
    | none =>
      simp only [dedupAux, ht] at ha
      exact ih seen a ha
    | some t =>
      simp only [dedupAux, ht] at ha
      by_cases hc : t ≠ "" ∧ t ∉ seen
      · rw [if_pos hc] at ha
        rcases List.mem_cons.mp ha with hb | hm
        · subst hb; exact ⟨t, ht, hc⟩
        · obtain ⟨u, hu, hune, hus⟩ := ih (t :: seen) a hm
          exact ⟨u, hu, hune, fun hin => hus (by simp [hin])⟩
      · rw [if_neg hc] at ha
        exact ih seen a ha

lemma dedupAux_titles_pairwise : ∀ (L : List NewsArticle) (seen : List String),
    List.Pairwise (fun a b => normalizedTitle a ≠ normalizedTitle b) (dedupAux L seen) := by
  intro L
  induction L with
  | nil => intro seen; simp [dedupAux]
  | cons b rest ih =>
    intro seen
    cases ht : normalizedTitle b with
    | none => simp only [dedupAux, ht]; exact ih seen
    | some t =>
      simp only [dedupAux, ht]
      by_cases hc : t ≠ "" ∧ t ∉ seen
      · rw [if_pos hc]
        refine List.pairwise_cons.mpr ⟨?_, ih (t :: seen)⟩
        intro a ha
        obtain ⟨u, hu, _, hus⟩ := dedupAux_mem rest (t :: seen) a ha
        rw [ht, hu]
        intro hcontra
        exact hus (by simp [Option.some_inj.mp hcontra.symm])
      · rw [if_neg hc]; exact ih seen

lemma dedupAux_fixed : ∀ (L : List NewsArticle) (seen : List String),
    (∀ a ∈ L, ∃ t, normalizedTitle a = some t ∧ t ≠ "" ∧ t ∉ seen) →
    List.Pairwise (fun a b => normalizedTitle a ≠ normalizedTitle b) L →
    dedupAux L seen = L := by
  intro L
  induction L with
  | nil => intro seen _ _; rfl
  | cons b rest ih =>
    intro seen hvalid hpw
    obtain ⟨t, ht, htne, hts⟩ := hvalid b (by simp)
    simp only [dedupAux, ht]
    rw [if_pos ⟨htne, hts⟩]
    congr 1
    apply ih (t :: seen) ?_ (List.pairwise_cons.mp hpw).2
    intro a ha
    obtain ⟨u, hu, hune, hus⟩ := hvalid a (by simp [ha])
    refine ⟨u, hu, hune, ?_⟩
    intro hin
    rcases List.mem_cons.mp hin with heq | hm
    · subst heq
      exact (List.pairwise_cons.mp hpw).1 a ha (by rw [ht, hu])
    · exact hus hm

/-- C4 (amended): deduplication is idempotent, and the output is exactly
the first occurrence of each distinct *nonempty* normalized title, in
original relative order (`dedupSpecKeepFirst`); articles whose title is
absent or normalizes to the empty string are dropped, which is the one
amendment the counterexample forces. -/
theorem deduplicateArticles_idempotent_firstOccurrence (L : List NewsArticle) :
    deduplicateArticles (deduplicateArticles L) = deduplicateArticles L ∧
    deduplicateArticles L = dedupSpecKeepFirst L := by
  constructor
  · unfold deduplicateArticles
    apply dedupAux_fixed
    · intro a ha
      obtain ⟨t, ht, htne, _⟩ := dedupAux_mem L [] a ha
      exact ⟨t, ht, htne, by simp⟩
    · exact dedupAux_titles_pairwise L []
  · exact dedupAux_eq_keepFirst L.length L le_rfl


/-- C4 counterexample: taken literally, "the output contains exactly the
first occurrence of each distinct normalized title" (`dedupSpecAllTitles`)
fails on an article whose title normalizes to the empty string — the
claimed output keeps it, the code drops it. -/
lemma toLower_trim_empty : "".toLower.trim = "" := by
  have h1 : "".toLower = "" := by
    rw [String.toLower, String.map, String.mapAux]
    simp [String.atEnd]
    intro h
    exact (h rfl).elim
  rw [h1]
  simp [String.trim, String.toSubstring, Substring.trim, Substring.trimLeft,
    Substring.trimRight, Substring.takeWhile, Substring.takeRightWhileAux,
    Substring.takeWhileAux, Substring.toString, String.extract]

lemma normalizedTitle_emptyTitledArticle : normalizedTitle emptyTitledArticle = some "" := by
  simp only [normalizedTitle, emptyTitledArticle, Option.map_some']
  rw [toLower_trim_empty]

theorem deduplicateArticles_counterexample :
    dedupSpecAllTitles [emptyTitledArticle] = [emptyTitledArticle] ∧
    deduplicateArticles [emptyTitledArticle] = [] := by
  have ht : normalizedTitle emptyTitledArticle = some "" := normalizedTitle_emptyTitledArticle
  constructor
  · simp [dedupSpecAllTitles, ht]
  · have hcond : ¬("" ≠ "" ∧ "" ∉ ([] : List String)) := by simp
    simp [deduplicateArticles, dedupAux, ht, if_neg hcond]

/-- C10: deduplication drops every article whose title is absent or
whose normalized title is empty — every output article has a nonempty
normalized title, and an input of only such articles yields `[]`. -/
theorem deduplicateArticles_drops_titleless (L : List NewsArticle) :
    (∀ a ∈ deduplicateArticles L, ∃ t, normalizedTitle a = some t ∧ t ≠ "") ∧
    ((∀ a ∈ L, a.title = none ∨ normalizedTitle a = some "") →
      deduplicateArticles L = []) := by
  constructor
  · intro a ha
    obtain ⟨t, ht, htne, _⟩ := dedupAux_mem L [] a ha
    exact ⟨t, ht, htne⟩
  · intro hbad
    unfold deduplicateArticles
    induction L with
    | nil => rfl
    | cons b rest ih =>
      rcases hbad b (by simp) with hnone | hempty
      · have ht : normalizedTitle b = none := by simp [normalizedTitle, hnone]
        simp only [dedupAux, ht]
        exact ih (fun a ha => hbad a (by simp [ha]))
      · have hcond : ¬("" ≠ "" ∧ "" ∉ ([] : List String)) := by simp
        simp only [dedupAux, hempty, if_neg hcond]
        exact ih (fun a ha => hbad a (by simp [ha]))

/-- Witness for C10: a list of one untitled and one whitespace-titled
article deduplicates to the empty list. -/
theorem deduplicateArticles_drops_titleless_witness :
    deduplicateArticles [{ emptyTitledArticle with title := none }, emptyTitledArticle] = [] := by
  apply (deduplicateArticles_drops_titleless _).2
  intro a ha
  rcases List.mem_cons.mp ha with h1 | h2
  · left; rw [h1]
  · right
    have h3 : a = emptyTitledArticle := by simpa using h2
    rw [h3]
    exact normalizedTitle_emptyTitledArticle

/-! ## Theorems: average sentiment (claims C6 and C7) -/

lemma foldl_sentimentFold : ∀ (L : List NewsArticle) (init : ℚ × ℚ × ℚ × ℕ),
    L.foldl sentimentFold init =
      (init.1 + ((L.filterMap NewsArticle.sentiment).map fun s => s.pos.getD 0).sum,
       init.2.1 + ((L.filterMap NewsArticle.sentiment).map fun s => s.neg.getD 0).sum,
       init.2.2.1 + ((L.filterMap NewsArticle.sentiment).map fun s => s.neu.getD 0).sum,
       init.2.2.2 + (L.filterMap NewsArticle.sentiment).length) := by
  intro L
  induction L with
  | nil => intro init; simp
  | cons a rest ih =>
    intro init
    cases hs : a.sentiment with
    | none =>
      simp only [List.foldl_cons, List.filterMap_cons, hs, sentimentFold]
      exact ih init
    | some s =>
      simp only [List.foldl_cons, List.filterMap_cons, hs, sentimentFold]
      rw [ih]
      simp only [List.map_cons, List.sum_cons, List.length_cons]
      refine congrArg₂ _ (by ring) (congrArg₂ _ (by ring) (congrArg₂ _ (by ring) (by omega)))

lemma calculateAverageSentiment_char (L : List NewsArticle) :
    (L.filterMap NewsArticle.sentiment = [] →
      calculateAverageSentiment L = ⟨0, 1, 0⟩) ∧
    (L.filterMap NewsArticle.sentiment ≠ [] →
      calculateAverageSentiment L =
        { positive := roundTo SENTIMENT_PRECISION
            ((((L.filterMap NewsArticle.sentiment).map fun s => s.pos.getD 0).sum)
              / (L.filterMap NewsArticle.sentiment).length),
          neutral := roundTo SENTIMENT_PRECISION
            ((((L.filterMap NewsArticle.sentiment).map fun s => s.neu.getD 0).sum)
              / (L.filterMap NewsArticle.sentiment).length),
          negative := roundTo SENTIMENT_PRECISION
            ((((L.filterMap NewsArticle.sentiment).map fun s => s.neg.getD 0).sum)
              / (L.filterMap NewsArticle.sentiment).length) }) := by
  constructor
  · intro h
    unfold calculateAverageSentiment
    rw [foldl_sentimentFold L (0, 0, 0, 0)]
    simp [h]
  · intro h
    unfold calculateAverageSentiment
    rw [foldl_sentimentFold L (0, 0, 0, 0)]
    have hlen : (L.filterMap NewsArticle.sentiment).length ≠ 0 := by
      simpa [List.length_eq_zero] using h
    simp only [zero_add]
    rw [if_neg hlen]

/-- C6: calculateAverageSentiment averages each component only over the
articles that carry a sentiment object (absent components count as 0,
articles without sentiment are excluded from the denominator), rounded
to `SENTIMENT_PRECISION` decimals, and returns exactly
`(positive 0, neutral 1, negative 0)` when no article carries
sentiment. -/
theorem calculateAverageSentiment_mean (L : List NewsArticle) :
    (L.filterMap NewsArticle.sentiment = [] →
      calculateAverageSentiment L = ⟨0, 1, 0⟩) ∧
    (L.filterMap NewsArticle.sentiment ≠ [] →
      calculateAverageSentiment L =
        { positive := roundTo SENTIMENT_PRECISION
            ((((L.filterMap NewsArticle.sentiment).map fun s => s.pos.getD 0).sum)
              / (L.filterMap NewsArticle.sentiment).length),
          neutral := roundTo SENTIMENT_PRECISION
            ((((L.filterMap NewsArticle.sentiment).map fun s => s.neu.getD 0).sum)
              / (L.filterMap NewsArticle.sentiment).length),
          negative := roundTo SENTIMENT_PRECISION
            ((((L.filterMap NewsArticle.sentiment).map fun s => s.neg.getD 0).sum)
              / (L.filterMap NewsArticle.sentiment).length) }) :=
  calculateAverageSentiment_char L


/-- Witness for C6 on a one-article list with sentiment
`(pos 1/2, neg 1/4, neu 1/4)`. -/
theorem calculateAverageSentiment_mean_witness :
    calculateAverageSentiment [sentimentArticle] =
      { positive := roundTo SENTIMENT_PRECISION (1/2),
        neutral := roundTo SENTIMENT_PRECISION (1/4),
        negative := roundTo SENTIMENT_PRECISION (1/4) } := by
  have h := (calculateAverageSentiment_mean [sentimentArticle]).2
    (by simp [sentimentArticle, emptyTitledArticle])
  rw [h]
  simp [sentimentArticle, emptyTitledArticle, sentimentHalfQuarter]

lemma roundTo_abs_sub (p : ℕ) (x : ℚ) : |roundTo p x - x| ≤ 1 / (2 * 10 ^ p) := by
  have hpow : (0 : ℚ) < 10 ^ p := by positivity
  have h1 : roundTo p x - x = ((round (x * 10 ^ p) : ℚ) - x * 10 ^ p) / 10 ^ p := by
    field_simp [roundTo]
    ring
  rw [h1, abs_div, abs_of_pos hpow]
  rw [div_le_div_iff₀ hpow (by positivity)]
  have h2 : |(round (x * 10 ^ p) : ℚ) - x * 10 ^ p| ≤ 1 / 2 := by
    rw [abs_sub_comm]
    exact abs_sub_round (x * 10 ^ p)
  calc |(round (x * 10 ^ p) : ℚ) - x * 10 ^ p| * (2 * 10 ^ p)
      ≤ (1 / 2) * (2 * 10 ^ p) := by
        apply mul_le_mul_of_nonneg_right h2 (by positivity)
    _ = 1 * 10 ^ p := by ring

lemma roundTo_mean_bounds (xs : List ℚ) (hx : xs ≠ []) (lo hi : ℚ)
    (h : ∀ x ∈ xs, lo ≤ x ∧ x ≤ hi) :
    lo - 1 / 2000 ≤ roundTo 3 (xs.sum / xs.length) ∧
    roundTo 3 (xs.sum / xs.length) ≤ hi + 1 / 2000 := by
  have hlen : 0 < (xs.length : ℚ) := by
    have : 0 < xs.length := List.length_pos.mpr hx
    exact_mod_cast this
  have hub : xs.sum / xs.length ≤ hi := by
    rw [div_le_iff₀ hlen]
    calc xs.sum ≤ xs.length • hi := List.sum_le_card_nsmul xs hi fun x hxm => (h x hxm).2
      _ = hi * xs.length := by simp [nsmul_eq_mul]; ring
  have hlb : lo ≤ xs.sum / xs.length := by
    rw [le_div_iff₀ hlen]
    calc lo * xs.length = xs.length • lo := by simp [nsmul_eq_mul]; ring
      _ ≤ xs.sum := List.card_nsmul_le_sum xs lo fun x hxm => (h x hxm).1
  have hr := roundTo_abs_sub 3 (xs.sum / xs.length)
  have hr2 : |roundTo 3 (xs.sum / xs.length) - xs.sum / xs.length| ≤ 1 / 2000 := by
    calc |roundTo 3 (xs.sum / xs.length) - xs.sum / xs.length| ≤ 1 / (2 * 10 ^ 3) := hr
      _ = 1 / 2000 := by norm_num
  rw [abs_le] at hr2
  constructor
  · linarith [hr2.1]
  · linarith [hr2.2]

/-- C7 (amended): for a list with at least one sentiment-bearing
article, each component of the average lies within every bound pair
enclosing that component's article-level values — in particular within
the component minimum and maximum — widened by half a rounding step
(`1/2000` at precision 3); the unwidened claim fails because of the
final rounding. -/
theorem calculateAverageSentiment_bounds (L : List NewsArticle)
    (hne : L.filterMap NewsArticle.sentiment ≠ [])
    (loP hiP loU hiU loN hiN : ℚ)
    (hP : ∀ s ∈ L.filterMap NewsArticle.sentiment, loP ≤ s.pos.getD 0 ∧ s.pos.getD 0 ≤ hiP)
    (hU : ∀ s ∈ L.filterMap NewsArticle.sentiment, loU ≤ s.neu.getD 0 ∧ s.neu.getD 0 ≤ hiU)
    (hN : ∀ s ∈ L.filterMap NewsArticle.sentiment, loN ≤ s.neg.getD 0 ∧ s.neg.getD 0 ≤ hiN) :
    (loP - 1 / 2000 ≤ (calculateAverageSentiment L).positive ∧
      (calculateAverageSentiment L).positive ≤ hiP + 1 / 2000) ∧
    (loU - 1 / 2000 ≤ (calculateAverageSentiment L).neutral ∧
      (calculateAverageSentiment L).neutral ≤ hiU + 1 / 2000) ∧
    (loN - 1 / 2000 ≤ (calculateAverageSentiment L).negative ∧
      (calculateAverageSentiment L).negative ≤ hiN + 1 / 2000) := by
  have hchar := (calculateAverageSentiment_char L).2 hne
  rw [hchar]
  have hmapne : ∀ f : Sentiment → ℚ,
      (L.filterMap NewsArticle.sentiment).map f ≠ [] := by
    intro f
    simpa using hne
  have hlenP : ((L.filterMap NewsArticle.sentiment).map fun s => s.pos.getD 0).length
      = (L.filterMap NewsArticle.sentiment).length := List.length_map _ _
  refine ⟨?_, ?_, ?_⟩
  · have := roundTo_mean_bounds ((L.filterMap NewsArticle.sentiment).map fun s => s.pos.getD 0)
      (hmapne _) loP hiP (by
        intro x hxm
        obtain ⟨s, hs, hsx⟩ := List.mem_map.mp hxm
        exact hsx ▸ hP s hs)
    rw [List.length_map] at this
    exact this
  · have := roundTo_mean_bounds ((L.filterMap NewsArticle.sentiment).map fun s => s.neu.getD 0)
      (hmapne _) loU hiU (by
        intro x hxm
        obtain ⟨s, hs, hsx⟩ := List.mem_map.mp hxm
        exact hsx ▸ hU s hs)
    rw [List.length_map] at this
    exact this
  · have := roundTo_mean_bounds ((L.filterMap NewsArticle.sentiment).map fun s => s.neg.getD 0)
      (hmapne _) loN hiN (by
        intro x hxm
        obtain ⟨s, hs, hsx⟩ := List.mem_map.mp hxm
        exact hsx ▸ hN s hs)
    rw [List.length_map] at this
    exact this


/-- C7 counterexample: on a one-article list whose positive component is
exactly `1/2500`, the rounded average positive component is `0`, *below*
the component minimum `1/2500` — so the unwidened claim (result within
the article-level min/max, including after rounding) is false. -/
theorem calculateAverageSentiment_bounds_counterexample :
    (([tinySentimentArticle].filterMap NewsArticle.sentiment).map fun s => s.pos.getD 0)
        = [1/2500] ∧
    (calculateAverageSentiment [tinySentimentArticle]).positive = 0 ∧
    ¬((1 : ℚ)/2500 ≤ (calculateAverageSentiment [tinySentimentArticle]).positive) := by
  have h1 : (([tinySentimentArticle].filterMap NewsArticle.sentiment).map
      fun s => s.pos.getD 0) = [1/2500] := by
    simp [tinySentimentArticle, tinySentiment, emptyTitledArticle]
  have h2 : (calculateAverageSentiment [tinySentimentArticle]).positive = 0 := by
    have hchar := (calculateAverageSentiment_char [tinySentimentArticle]).2
      (by simp [tinySentimentArticle, tinySentiment, emptyTitledArticle])
    rw [hchar]
    have hflt : List.filterMap NewsArticle.sentiment [tinySentimentArticle]
        = [tinySentiment] := by
      simp [tinySentimentArticle, emptyTitledArticle]
    simp only [hflt]
    have hround : round ((1 : ℚ)/2500 * 10 ^ 3) = 0 := by
      rw [round_eq]; norm_num
    simp [tinySentiment, roundTo, SENTIMENT_PRECISION, hround]
    norm_num
  refine ⟨h1, h2, ?_⟩
  rw [h2]
  norm_num

/-- Witness for C7 on the one-article list with sentiment
`(pos 1/2, neg 1/4, neu 1/4)` and the trivial bounds given by that
single value. -/
theorem calculateAverageSentiment_bounds_witness :
    (1/2 - 1/2000 : ℚ) ≤ (calculateAverageSentiment [sentimentArticle]).positive ∧
    (calculateAverageSentiment [sentimentArticle]).positive ≤ (1/2 + 1/2000 : ℚ) := by
  have h := calculateAverageSentiment_bounds [sentimentArticle]
    (by simp [sentimentArticle, emptyTitledArticle])
    (1/2) (1/2) (1/4) (1/4) (1/4) (1/4)
    (by intro s hs
        simp [sentimentArticle, emptyTitledArticle, sentimentHalfQuarter] at hs
        simp [hs])
    (by intro s hs
        simp [sentimentArticle, emptyTitledArticle, sentimentHalfQuarter] at hs
        simp [hs])
    (by intro s hs
        simp [sentimentArticle, emptyTitledArticle, sentimentHalfQuarter] at hs
        simp [hs])
  exact h.1

/-! ## Theorems: political-leaning distribution (claim C5) -/

lemma leaningCounts_eq : ∀ (L : List NewsArticle) (m : PoliticalLeaning → ℕ)
    (l : PoliticalLeaning),
    (L.foldl (fun m a l => if l = articleLeaning a then m l + 1 else m l) m) l
      = m l + (L.map articleLeaning).count l := by
  intro L
  induction L with
  | nil => intro m l; simp
  | cons a rest ih =>
    intro m l
    simp only [List.foldl_cons, List.map_cons, List.count_cons]
    rw [ih]
    by_cases h : l = articleLeaning a
    · simp [h]; omega
    · have h2 : ¬(articleLeaning a = l) := fun hc => h hc.symm
      simp [h, h2]

lemma sum_map_add {α : Type} (ls : List α) (f g : α → ℕ) :
    (ls.map fun x => f x + g x).sum = (ls.map f).sum + (ls.map g).sum := by
  induction ls with
  | nil => simp
  | cons a rest ih => simp [ih]; omega

lemma count_sum_leanings (xs : List PoliticalLeaning) :
    (leaningInitOrder.map fun l => xs.count l).sum = xs.length := by
  induction xs with
  | nil => simp [leaningInitOrder]
  | cons y ys ih =>
    have hcc : ∀ l : PoliticalLeaning, (y :: ys).count l = ys.count l + if l = y then 1 else 0 := by
      intro l
      rw [List.count_cons]
      congr 1
      by_cases h : l = y
      · simp [h]
      · have h2 : ¬(y = l) := fun hc => h hc.symm
        simp [h, h2]
    simp only [hcc]
    rw [sum_map_add leaningInitOrder (fun l => ys.count l) (fun l => if l = y then 1 else 0), ih]
    have hone : (leaningInitOrder.map fun l => if l = y then 1 else 0).sum = 1 := by
      cases y <;> simp [leaningInitOrder]
    rw [hone]
    simp

lemma sum_map_div {α : Type} (ls : List α) (f : α → ℚ) (T : ℚ) :
    (ls.map fun x => f x / T).sum = (ls.map f).sum / T := by
  induction ls with
  | nil => simp
  | cons a rest ih => simp [ih, add_div]

lemma sum_map_natCast {α : Type} (ls : List α) (f : α → ℕ) :
    (ls.map fun x => ((f x : ℕ) : ℚ)).sum = (((ls.map f).sum : ℕ) : ℚ) := by
  induction ls with
  | nil => simp
  | cons a rest ih => simp [ih]

lemma sum_map_roundTo_close (ls : List ℚ) :
    |(ls.map (roundTo 4)).sum - ls.sum| ≤ ls.length * (1 / 20000) := by
  induction ls with
  | nil => simp
  | cons x rest ih =>
    simp only [List.map_cons, List.sum_cons, List.length_cons]
    have hx : |roundTo 4 x - x| ≤ 1 / 20000 := by
      calc |roundTo 4 x - x| ≤ 1 / (2 * 10 ^ 4) := roundTo_abs_sub 4 x
        _ = 1 / 20000 := by norm_num
    calc |roundTo 4 x + (rest.map (roundTo 4)).sum - (x + rest.sum)|
        = |(roundTo 4 x - x) + ((rest.map (roundTo 4)).sum - rest.sum)| := by ring_nf
      _ ≤ |roundTo 4 x - x| + |(rest.map (roundTo 4)).sum - rest.sum| := abs_add _ _
      _ ≤ 1 / 20000 + rest.length * (1 / 20000) := add_le_add hx ih
      _ = ((rest.length + 1 : ℕ) : ℚ) * (1 / 20000) := by push_cast; ring

/-- C5: the political-leaning distribution always contains exactly the 8
fixed categories (each exactly once, zero counts included); each row's
count is the number of articles whose effective leaning (absent leaning
counts as nonpartisan) is that category, and its share is
`count / total` rounded to 4 decimals with the denominator forced to 1
on an empty list; the output is sorted by count descending; and for a
non-empty list the shares sum to 1 within the rounding tolerance
`8 * 1/20000`. -/
theorem aggregatePoliticalLeaning_spec (L : List NewsArticle) :
    ((aggregatePoliticalLeaning L).map PoliticalLeaningCount.leaning).Perm leaningInitOrder ∧
    (∀ e ∈ aggregatePoliticalLeaning L,
      e.count = (L.map articleLeaning).count e.leaning ∧
      e.share = roundTo 4 ((e.count : ℚ) /
        (if L.length = 0 then 1 else (L.length : ℚ)))) ∧
    List.Sorted countDescRel (aggregatePoliticalLeaning L) ∧
    (L ≠ [] →
      |((aggregatePoliticalLeaning L).map PoliticalLeaningCount.share).sum - 1|
        ≤ 8 * (1 / 20000)) := by
  have hcnt : ∀ l, (L.foldl (fun m a l => if l = articleLeaning a then m l + 1 else m l)
      (fun _ => 0)) l = (L.map articleLeaning).count l := by
    intro l
    rw [leaningCounts_eq L (fun _ => 0) l]
    simp
  set c : PoliticalLeaning → ℕ :=
    L.foldl (fun m a l => if l = articleLeaning a then m l + 1 else m l) (fun _ => 0) with hc
  set T : ℚ := if L.length = 0 then 1 else (L.length : ℚ) with hT
  have hagg : aggregatePoliticalLeaning L = List.insertionSort countDescRel
      (leaningInitOrder.map fun l => ⟨l, c l, roundTo 4 ((c l : ℚ) / T)⟩) := by
    rfl
  set pre : List PoliticalLeaningCount :=
    leaningInitOrder.map fun l => ⟨l, c l, roundTo 4 ((c l : ℚ) / T)⟩ with hpre
  have hperm : (aggregatePoliticalLeaning L).Perm pre := by
    rw [hagg]
    exact List.perm_insertionSort countDescRel pre
  refine ⟨?_, ?_, ?_, ?_⟩
  · have h1 : ((aggregatePoliticalLeaning L).map PoliticalLeaningCount.leaning).Perm
        (pre.map PoliticalLeaningCount.leaning) := hperm.map _
    have h2 : pre.map PoliticalLeaningCount.leaning = leaningInitOrder := by
      rw [hpre, List.map_map]
      exact List.map_id leaningInitOrder
    rw [h2] at h1
    exact h1
  · intro e he
    have hmem : e ∈ pre := (hperm.mem_iff).mp he
    obtain ⟨l, _, hl⟩ := List.mem_map.mp hmem
    constructor
    · rw [← hl]
      exact hcnt l
    · rw [← hl]
  · rw [hagg]
    exact List.sorted_insertionSort countDescRel pre
  · intro hLne
    have hsum : ((aggregatePoliticalLeaning L).map PoliticalLeaningCount.share).sum
        = (pre.map PoliticalLeaningCount.share).sum :=
      (hperm.map PoliticalLeaningCount.share).sum_eq
    have hshare : pre.map PoliticalLeaningCount.share
        = (leaningInitOrder.map fun l => (c l : ℚ) / T).map (roundTo 4) := by
      rw [hpre, List.map_map, List.map_map]
      rfl
    have hTval : T = (L.length : ℚ) := by
      rw [hT, if_neg (by simpa [List.length_eq_zero] using hLne)]
    have hTne : T ≠ 0 := by
      rw [hTval]
      have : 0 < L.length := List.length_pos.mpr hLne
      positivity
    have hds_sum : ((leaningInitOrder.map fun l => (c l : ℚ) / T)).sum = 1 := by
      rw [sum_map_div leaningInitOrder (fun l => (c l : ℚ)) T]
      have hcast : (leaningInitOrder.map fun l => ((c l : ℕ) : ℚ)).sum
          = (((leaningInitOrder.map fun l => c l).sum : ℕ) : ℚ) :=
        sum_map_natCast leaningInitOrder c
      rw [hcast]
      have hcnts : (leaningInitOrder.map fun l => c l) =
          (leaningInitOrder.map fun l => (L.map articleLeaning).count l) := by
        apply List.map_congr_left
        intro l _
        exact hcnt l
      rw [hcnts, count_sum_leanings (L.map articleLeaning), List.length_map, ← hTval]
      exact div_self hTne
    have hclose := sum_map_roundTo_close (leaningInitOrder.map fun l => (c l : ℚ) / T)
    rw [hds_sum] at hclose
    have hlen8 : ((leaningInitOrder.map fun l => (c l : ℚ) / T).length : ℚ) = 8 := by
      simp [leaningInitOrder]
    rw [hlen8] at hclose
    rw [hsum, hshare]
    calc |((leaningInitOrder.map fun l => (c l : ℚ) / T).map (roundTo 4)).sum - 1|
        ≤ 8 * (1 / 20000) := hclose

/-- Witness for C5: on a one-article list the shares sum to exactly
`1` up to the rounding tolerance. -/
theorem aggregatePoliticalLeaning_spec_witness :
    |((aggregatePoliticalLeaning [sentimentArticle]).map PoliticalLeaningCount.share).sum - 1|
      ≤ 8 * (1 / 20000) := by
  exact (aggregatePoliticalLeaning_spec [sentimentArticle]).2.2.2 (by simp)

/-! ## Theorems: orchestrator failure semantics and pagination (claims C8 and C9) -/

lemma cacheGet_writes_nothing {V : Type} (s : CacheState V) (now : ℚ) (key : String) :
    ∀ k, (CacheService.get s now key).2 k = s k ∨
      ((CacheService.get s now key).2 k = none ∧ k = key) := by
  intro k
  unfold CacheService.get
  cases hs : s key with
  | none => left; rfl
  | some entry =>
    by_cases h : now > entry.2
    · simp only [h, if_true]
      by_cases hk : k = key
      · right
        subst hk
        simp
      · left
        simp [hk]
    · simp only [h, if_false]
      left; trivial

/-- C8: on a cache miss, when the awaited article fetch fails, the
orchestrator returns that failure unchanged and performs no cache write:
the final store is exactly the store left by the lookup, which can only
have dropped the expired entry under the analysis key — in particular
neither the article-list key nor the analysis key gains an entry, and no
partial or stale record is returned. -/
theorem analyzeTopicCoverage_no_cache_on_failure {E : Type} (env : AnalyzeEnv E)
    (p : AnalyzeParams) (s : CacheState CacheVal) (e : E)
    (hdemo : isDemoMode p.topic = false)
    (hmiss : (CacheService.get s env.now (generateTopicAnalysisCacheKey p)).1 = none)
    (hfail : env.fetchResult = Except.error e) :
    (analyzeTopicCoverage env p s).1 = Except.error e ∧
    (analyzeTopicCoverage env p s).2
      = (CacheService.get s env.now (generateTopicAnalysisCacheKey p)).2 ∧
    (∀ k, (analyzeTopicCoverage env p s).2 k = s k ∨
      ((analyzeTopicCoverage env p s).2 k = none ∧ k = generateTopicAnalysisCacheKey p)) := by
  have hpair : CacheService.get s env.now (generateTopicAnalysisCacheKey p)
      = (none, (CacheService.get s env.now (generateTopicAnalysisCacheKey p)).2) := by
    rw [← hmiss]
  have hred : analyzeTopicCoverage env p s
      = (Except.error e, (CacheService.get s env.now (generateTopicAnalysisCacheKey p)).2) := by
    unfold analyzeTopicCoverage
    rw [hdemo]
    simp only [Bool.false_eq_true, if_false]
    rw [hpair, hfail]
  refine ⟨by rw [hred], by rw [hred], ?_⟩
  intro k
  rw [hred]
  exact cacheGet_writes_nothing s env.now (generateTopicAnalysisCacheKey p) k

lemma trim_empty_string : "".trim = "" := by
  simp [String.trim, String.toSubstring, Substring.trim, Substring.trimLeft,
    Substring.trimRight, Substring.takeWhile, Substring.takeRightWhileAux,
    Substring.takeWhileAux, Substring.toString, String.extract]

lemma isDemoMode_empty : isDemoMode "" = false := by
  unfold isDemoMode
  rw [trim_empty_string]
  decide


/-- Witness for C8: with an empty cache and a failing fetch, the call
returns the fetch error and the analysis-record key is still absent. -/
theorem analyzeTopicCoverage_no_cache_on_failure_witness :
    (analyzeTopicCoverage failingEnv plainParams (emptyCache CacheVal)).1
        = Except.error "HTTP 503 error" ∧
    (analyzeTopicCoverage failingEnv plainParams (emptyCache CacheVal)).2
        = (CacheService.get (emptyCache CacheVal) failingEnv.now
            (generateTopicAnalysisCacheKey plainParams)).2 := by
  have h := analyzeTopicCoverage_no_cache_on_failure failingEnv plainParams
    (emptyCache CacheVal) "HTTP 503 error" isDemoMode_empty (by rfl) (by rfl)
  exact ⟨h.1, h.2.1⟩

lemma fetchPagesGo_requests_le (service : Option String → NewsPageResponse) :
    ∀ (fuel : ℕ) (cursor : Option String) (acc : List NewsArticle) (loopCount : ℕ)
      (tier : Option ApiTier),
      (fetchPagesGo service fuel cursor acc loopCount tier).requests ≤ fuel + 1 := by
  intro fuel
  induction fuel with
  | zero =>
    intro cursor acc loopCount tier
    simp [fetchPagesGo]
  | succ f ih =>
    intro cursor acc loopCount tier
    simp only [fetchPagesGo]
    by_cases h : cursorDone (service cursor).next_cursor
    · simp [h]
    · simp only [h, Bool.false_eq_true, if_false]
      have := ih (service cursor).next_cursor
        (acc ++ (service cursor).data) (loopCount + 1)
        (if loopCount = 0 && (service cursor).apiTier.isSome then (service cursor).apiTier
          else tier)
      omega

lemma fetchPagesGo_neverending (service : Option String → NewsPageResponse)
    (h : ∀ c, cursorDone (service c).next_cursor = false) :
    ∀ (fuel : ℕ) (cursor : Option String) (acc : List NewsArticle) (loopCount : ℕ)
      (tier : Option ApiTier),
      (fetchPagesGo service fuel cursor acc loopCount tier).requests = fuel + 1 := by
  intro fuel
  induction fuel with
  | zero =>
    intro cursor acc loopCount tier
    simp [fetchPagesGo]
  | succ f ih =>
    intro cursor acc loopCount tier
    simp only [fetchPagesGo, h (cursor), Bool.false_eq_true, if_false]
    rw [ih]


lemma cursorChainFrom_succ_left (service : Option String → NewsPageResponse)
    (cursor : Option String) :
    ∀ i, cursorChainFrom service cursor (i + 1)
      = cursorChainFrom service ((service cursor).next_cursor) i := by
  intro i
  induction i with
  | zero => rfl
  | succ i ih =>
    show (service (cursorChainFrom service cursor (i + 1))).next_cursor = _
    rw [ih]
    rfl

lemma fetchPagesGo_articles_neverending (service : Option String → NewsPageResponse)
    (h : ∀ c, cursorDone (service c).next_cursor = false) :
    ∀ (fuel : ℕ) (cursor : Option String) (acc : List NewsArticle) (loopCount : ℕ)
      (tier : Option ApiTier),
      (fetchPagesGo service fuel cursor acc loopCount tier).articles
        = acc ++ ((List.range (fuel + 1)).map
            fun i => (service (cursorChainFrom service cursor i)).data).flatten := by
  intro fuel
  induction fuel with
  | zero =>
    intro cursor acc loopCount tier
    simp [fetchPagesGo, List.range_succ, cursorChainFrom]
  | succ f ih =>
    intro cursor acc loopCount tier
    simp only [fetchPagesGo, h cursor, Bool.false_eq_true, if_false]
    rw [ih]
    have hshift : ∀ i, cursorChainFrom service cursor (i + 1)
        = cursorChainFrom service ((service cursor).next_cursor) i :=
      cursorChainFrom_succ_left service cursor
    have hcomp : ((fun i => (service (cursorChainFrom service cursor i)).data) ∘ Nat.succ)
        = fun i => (service (cursorChainFrom service ((service cursor).next_cursor) i)).data := by
      funext i
      simp only [Function.comp]
      rw [← hshift i]
    conv_rhs => rw [List.range_succ_eq_map]
    simp only [List.map_cons, List.map_map, List.flatten_cons]
    rw [hcomp, List.append_assoc]
    rfl

lemma cursorChain_eq_from (service : Option String → NewsPageResponse) :
    ∀ i, cursorChain service i = cursorChainFrom service none i := by
  intro i
  induction i with
  | zero => rfl
  | succ i ih =>
    show (service (cursorChain service i)).next_cursor = _
    rw [ih]
    rfl

/-- C9: the pagination loop always terminates with at most
`maxLoops + 1` page requests; when the next-cursor chain never ends it
issues exactly `maxLoops + 1` requests and returns the silently
truncated accumulation of those pages (no error); and when the first
page's next-cursor is already empty or absent it stops after a single
request. -/
theorem fetchPagination_terminates (service : Option String → NewsPageResponse)
    (maxLoops : ℕ) :
    (fetchPaginationLoop service maxLoops).requests ≤ maxLoops + 1 ∧
    ((∀ c, cursorDone (service c).next_cursor = false) →
      (fetchPaginationLoop service maxLoops).requests = maxLoops + 1 ∧
      (fetchPaginationLoop service maxLoops).articles
        = ((List.range (maxLoops + 1)).map
            fun i => (service (cursorChain service i)).data).flatten) ∧
    (cursorDone (service none).next_cursor = true →
      (fetchPaginationLoop service maxLoops).requests = 1) := by
  refine ⟨?_, ?_, ?_⟩
  · exact fetchPagesGo_requests_le service maxLoops none [] 0 none
  · intro h
    constructor
    · exact fetchPagesGo_neverending service h maxLoops none [] 0 none
    · have := fetchPagesGo_articles_neverending service h maxLoops none [] 0 none
      unfold fetchPaginationLoop
      rw [this]
      simp only [List.nil_append]
      congr 1
      apply List.map_congr_left
      intro i _
      rw [cursorChain_eq_from service i]
  · intro h
    cases maxLoops with
    | zero => simp [fetchPaginationLoop, fetchPagesGo]
    | succ m => simp [fetchPaginationLoop, fetchPagesGo, h]

/-- Witness for C9: a service whose pages always carry a next-cursor is
cut off after `MAX_PAGINATION_LOOPS + 1 = 21` requests. -/
theorem fetchPagination_terminates_witness :
    (fetchPaginationLoop (fun _ => ⟨[], some "next", none⟩) MAX_PAGINATION_LOOPS).requests
      = 21 := by
  exact ((fetchPagination_terminates (fun _ => ⟨[], some "next", none⟩)
    MAX_PAGINATION_LOOPS).2.1 (by intro c; decide)).1
